import Mathlib

/-!
Shallow embedding of `src/formalmath/metamath/core.py` (class `FormalSystem`),
a Metamath-style proof verifier, together with theorems settling the frozen
claims about its specification.

Modelling conventions:
* Python `str.split()` (whitespace split, dropping empty pieces) is `pysplit`;
  `' '.join` is `joinSp`.
* Python `dict` values (insertion-ordered, unique keys) are association lists
  `List (String × String)`; `aset` is `d[k] = v` (update in place, or append),
  `alookup` is `d.get(k)`, `amem` is `k in d`.
* A proposition record is the structure `PropRec` with the fields `d't'h'a`
  and optional `p` of `core.py`; the dynamic key-set and `isinstance` checks of
  `_check_` step 1 are enforced statically by the structure type.
* Python exceptions are the inductive `Err`.  `AssertionError`/`ValueError`
  raise sites are mapped to the error kinds of the specification's error
  table; the constructors `indexError`, `unpackError` and `keyError` stand for
  Python *runtime* exceptions (IndexError on `tokens[0]`, unpack ValueError on
  `a, b = xs`, KeyError) that are not among the enumerated kinds.
-/

/-- Worker for `pysplit`: walk the characters, flushing the accumulated token
at each whitespace boundary. -/
def splitWsAux : List Char → List Char → List String
  | [], acc => if acc.isEmpty then [] else [String.mk acc.reverse]
  | c :: cs, acc =>
    if c.isWhitespace then
      (if acc.isEmpty then [] else [String.mk acc.reverse]) ++ splitWsAux cs []
    else splitWsAux cs (c :: acc)

/-- Python `str.split()` with no argument: split on whitespace runs, dropping
empty pieces. -/
def pysplit (s : String) : List String :=
  splitWsAux s.toList []

/-- Python `' '.join(l)`. -/
def joinSp (l : List String) : String :=
  String.intercalate " " l

/-- Python `d.get(k)` on an insertion-ordered dict modelled as an assoc list. -/
def alookup {α : Type} : List (String × α) → String → Option α
  | [], _ => none
  | (k', v) :: rest, k => if k' = k then some v else alookup rest k

/-- Python `k in d`. -/
def amem {α : Type} (m : List (String × α)) (k : String) : Bool :=
  (alookup m k).isSome

/-- Python `d[k] = v`: overwrite in place if the key exists, else append. -/
def aset {α : Type} : List (String × α) → String → α → List (String × α)
  | [], k, v => [(k, v)]
  | (k', v') :: rest, k, v =>
    if k' = k then (k, v) :: rest else (k', v') :: aset rest k v

/-- The value stored under key `p` of a proposition: Python allows a string
(whitespace-split into steps) or a list of step labels. -/
inductive PVal where
  | str (s : String)
  | list (l : List String)
deriving DecidableEq, Repr

/-- The proof steps denoted by a `p` value
(`thm['p'].split() if isinstance(thm['p'], str) else thm['p']`). -/
def stepsOf : PVal → List String
  | .str s => pysplit s
  | .list l => l

/-- A proposition record: fields `d`, `t`, `h`, `a` and (theorems) `p` of
`core.py`.  `t`, `h`, `d` are insertion-ordered dicts of strings. -/
structure PropRec where
  d : List (String × String)
  t : List (String × String)
  h : List (String × String)
  a : String
  p : Option PVal
deriving DecidableEq, Repr

/-- The failure kinds of the verifier.  The first eleven are the enumerated
kinds of the specification's error table; `indexError`, `unpackError` and
`keyError` model Python runtime exceptions escaping from `core.py` that are
not `AssertionError`/`ValueError` raise sites. -/
inductive Err where
  | duplicateLabel
  | malformedField
  | unknownToken
  | distinctShape
  | deadVariable
  | unknownStep
  | stackUnderflow
  | typeMismatch
  | distinctViolation
  | hypothesisMismatch
  | malformedProof
  | indexError
  | unpackError
  | keyError
deriving DecidableEq, Repr

/-- The formal system container: `constants`, `axioms`, `theorems` and the
label namespace (`self.namespace`, a dict label → kind string). -/
structure FormalSystem where
  constants : List String
  axioms : List (String × PropRec)
  theorems : List (String × PropRec)
  ns : List (String × String)
deriving DecidableEq, Repr

/-! ### The proposition normalizer `_check_` -/

/-- Step 2 of `_check_`: walk the `t` entries in order, accumulating
`new_names` and `vars`.  Each typing label must be fresh, each value must
split into `constant variable` with the variable fresh. -/
def checkT (ns : List (String × String)) (constants : List String) :
    List (String × String) → List String → List String →
    Except Err (List String × List String)
  | [], new_names, vars => .ok (new_names, vars)
  | (k, v) :: rest, new_names, vars =>
    if amem ns k then .error .duplicateLabel
    else if new_names.contains k then .error .duplicateLabel
    else
      match pysplit v with
      | [c0, v1] =>
        if constants.contains c0 then
          if amem ns v1 || (new_names ++ [k]).contains v1 || vars.contains v1 then
            .error .duplicateLabel
          else
            checkT ns constants rest (new_names ++ [k, v1]) (vars ++ [v1])
        else .error .malformedField
      | _ => .error .malformedField

/-- Token check shared by steps 3 and 4 of `_check_`: every token must be a
declared constant or a local variable. -/
def checkTokens (constants vars : List String) : List String → Except Err Unit
  | [] => .ok ()
  | tok :: rest =>
    if constants.contains tok || vars.contains tok then
      checkTokens constants vars rest
    else .error .unknownToken

/-- Step 3 of `_check_`: hypothesis labels fresh, hypothesis tokens known. -/
def checkH (ns : List (String × String)) (constants : List String)
    (new_names vars : List String) :
    List (String × String) → List String → Except Err (List String)
  | [], hyp_names => .ok hyp_names
  | (k, v) :: rest, hyp_names =>
    if amem ns k || new_names.contains k || hyp_names.contains k then
      .error .duplicateLabel
    else
      match checkTokens constants vars (pysplit v) with
      | .error e => .error e
      | .ok () => checkH ns constants new_names vars rest (hyp_names ++ [k])

/-- Step 5 of `_check_`: distinct labels fresh, each value two different
local vars. -/
def checkD (ns : List (String × String)) (new_names hyp_names vars : List String) :
    List (String × String) → List String → Except Err Unit
  | [], _ => .ok ()
  | (k, v) :: rest, dist_names =>
    if amem ns k || new_names.contains k || hyp_names.contains k || dist_names.contains k then
      .error .duplicateLabel
    else
      match pysplit v with
      | [v1, v2] =>
        if vars.contains v1 && vars.contains v2 && v1 ≠ v2 then
          checkD ns new_names hyp_names vars rest (dist_names ++ [k])
        else .error .distinctShape
      | _ => .error .distinctShape

/-- Step 6 of `_check_`: every declared variable appears in some hypothesis
value or in the assertion. -/
def checkLive (vars : List String) (hs : List (String × String)) (a : String) :
    Except Err Unit :=
  let used := (hs.map (fun hv => pysplit hv.2)).flatten ++ pysplit a
  if vars.all (fun v => used.contains v) then .ok () else .error .deadVariable

/-- The normalizer `FormalSystem._check_`.  It reads only `self.namespace` and
`self.constants`, so those are the two parameters.  On success it returns the
record rebuilt field by field, exactly as the Python `return` does. -/
def checkProp (ns : List (String × String)) (constants : List String)
    (prop : PropRec) : Except Err PropRec :=
  match checkT ns constants prop.t [] [] with
  | .error e => .error e
  | .ok (new_names, vars) =>
    match checkH ns constants new_names vars prop.h [] with
    | .error e => .error e
    | .ok hyp_names =>
      match checkTokens constants vars (pysplit prop.a) with
      | .error e => .error e
      | .ok () =>
        match checkD ns new_names hyp_names vars prop.d [] with
        | .error e => .error e
        | .ok () =>
          match checkLive vars prop.h prop.a with
          | .error e => .error e
          | .ok () =>
            .ok { d := prop.d, t := prop.t, h := prop.h, a := prop.a, p := prop.p }

/-! ### The proof interpreter `_proof_check` -/

/-- Trace line for pushing a typing assumption (wording abbreviated; the
specification says phrasing is not part of the contract). -/
def pushTypeLine (idx : Nat) (step expr : String) : String :=
  "Step " ++ toString idx ++ ": push type assumption " ++ step ++ " -> " ++ expr

/-- Trace line for pushing a hypothesis. -/
def pushHypLine (idx : Nat) (step expr : String) : String :=
  "Step " ++ toString idx ++ ": push hypothesis " ++ step ++ " -> " ++ expr

/-- Trace line for applying a rule. -/
def applyLine (idx : Nat) (kind step : String) : String :=
  "Step " ++ toString idx ++ ": apply " ++ kind ++ " " ++ step

/-- Trace line for one typing-slot match during unification. -/
def matchLine (lbl pat_type var sub : String) : String :=
  "  match " ++ lbl ++ ": type " ++ pat_type ++ ", var " ++ var ++ " -> " ++ sub

/-- Trace line for one matched hypothesis. -/
def hypLine (h_lbl actual : String) : String :=
  "  hypothesis " ++ h_lbl ++ " matches " ++ actual

/-- Trace line for the pushed conclusion. -/
def concludeLine (concl : String) : String :=
  "  conclude -> " ++ concl ++ " and push to stack"

/-- Terminal trace line of a successful proof. -/
def finalLine (concl : String) : String :=
  "Proof successfully concludes with assertion " ++ concl

/-- Type unification of `_proof_check`: walk `zip(t_keys, args[:len(t_keys)])`
(here the `t` entries paired directly with their popped arguments); unpack the
typing pattern, demand the typecode matches the first token of the argument,
and bind the typing variable to the remaining tokens.  `tokens[0]` on an
argument with zero tokens is a Python `IndexError`. -/
def unifyTypes : List ((String × String) × String) → List (String × String) →
    List String → Except Err (List (String × String) × List String)
  | [], subs, tr => .ok (subs, tr)
  | ((lbl, tval), expr) :: rest, subs, tr =>
    match pysplit tval with
    | [pat_type, var] =>
      match pysplit expr with
      | [] => .error .indexError
      | tok0 :: toks =>
        if tok0 ≠ pat_type then .error .typeMismatch
        else
          unifyTypes rest (aset subs var (joinSp toks))
            (tr ++ [matchLine lbl pat_type var (joinSp toks)])
    | _ => .error .unpackError

/-- Nonempty intersection of the token sets (`set(a) & set(b)` truthy). -/
def tokensIntersect (a b : List String) : Bool :=
  a.any (fun t => b.contains t)

/-- Distinct-variable check of `_proof_check`: for each `d` entry `v1 v2` of
the applied rule, if both variables are bound in `subs` their substituted
token sets must be disjoint; entries with an unbound variable are skipped. -/
def distinctCheck : List (String × String) → List (String × String) → Except Err Unit
  | [], _ => .ok ()
  | (_, pair) :: rest, subs =>
    match pysplit pair with
    | [v1, v2] =>
      match alookup subs v1, alookup subs v2 with
      | some s1, some s2 =>
        if tokensIntersect (pysplit s1) (pysplit s2) then .error .distinctViolation
        else distinctCheck rest subs
      | _, _ => distinctCheck rest subs
    | _ => .error .unpackError

/-- Apply `subs` token by token to a pattern string
(`' '.join(subs.get(tok, tok) for tok in pat.split())`). -/
def substPattern (subs : List (String × String)) (pat : String) : String :=
  joinSp ((pysplit pat).map (fun tok => (alookup subs tok).getD tok))

/-- Hypothesis matching of `_proof_check`: each rule hypothesis, substituted,
must equal the corresponding popped argument. -/
def hypMatch (subs : List (String × String)) :
    List ((String × String) × String) → List String → Except Err (List String)
  | [], tr => .ok tr
  | ((h_lbl, h_pat), actual) :: rest, tr =>
    if actual ≠ substPattern subs h_pat then .error .hypothesisMismatch
    else hypMatch subs rest (tr ++ [hypLine h_lbl actual])

/-- One rule application of `_proof_check` (the body after `# apply rule`):
pop `|t| + |h|` expressions, unify the typing slots, run the distinct check,
match the hypotheses and push the substituted assertion.  The stack is a list
with its head as top, so popping is `take`/`drop` at the front. -/
def applyRule (rule : PropRec) (kind : String) (idx : Nat) (step : String)
    (stack trace : List String) : Except Err (List String × List String) :=
  if stack.length < rule.t.length + rule.h.length then .error .stackUnderflow
  else
    match unifyTypes
        (rule.t.zip ((stack.take (rule.t.length + rule.h.length)).reverse.take rule.t.length))
        [] (trace ++ [applyLine idx kind step]) with
    | .error e => .error e
    | .ok (subs, trace2) =>
      match distinctCheck rule.d subs with
      | .error e => .error e
      | .ok () =>
        match hypMatch subs
            (rule.h.zip ((stack.take (rule.t.length + rule.h.length)).reverse.drop rule.t.length))
            trace2 with
        | .error e => .error e
        | .ok trace3 =>
          .ok (substPattern subs rule.a :: stack.drop (rule.t.length + rule.h.length),
               trace3 ++ [concludeLine (substPattern subs rule.a)])

/-- One iteration of the step loop of `_proof_check`: resolve the step label
as a typing label of `thm`, then a hypothesis label of `thm`, then an axiom,
then an accepted theorem; otherwise the step is unknown. -/
def execStep (axs thms : List (String × PropRec)) (thm : PropRec) (idx : Nat)
    (step : String) (stack trace : List String) :
    Except Err (List String × List String) :=
  match alookup thm.t step with
  | some expr => .ok (expr :: stack, trace ++ [pushTypeLine idx step expr])
  | none =>
    match alookup thm.h step with
    | some expr => .ok (expr :: stack, trace ++ [pushHypLine idx step expr])
    | none =>
      match alookup axs step with
      | some rule => applyRule rule "axiom" idx step stack trace
      | none =>
        match alookup thms step with
        | some rule => applyRule rule "theorem" idx step stack trace
        | none => .error .unknownStep

/-- The step loop of `_proof_check` (`for idx, step in enumerate(steps, 1)`). -/
def runSteps (axs thms : List (String × PropRec)) (thm : PropRec) :
    List String → Nat → List String → List String →
    Except Err (List String × List String)
  | [], _, stack, trace => .ok (stack, trace)
  | step :: rest, idx, stack, trace =>
    match execStep axs thms thm idx step stack trace with
    | .error e => .error e
    | .ok (stack', trace') => runSteps axs thms thm rest (idx + 1) stack' trace'

/-- `FormalSystem._proof_check`: run the steps of `thm.p` on an empty stack;
after the final step the stack must hold exactly the theorem assertion.  The
result is the trace (the Python function returns `trace if detailed else
True`; success is the `.ok` case).  Reading `thm['p']` on a record without
`p` would be a Python `KeyError`. -/
def proofCheck (axs thms : List (String × PropRec)) (thm : PropRec) :
    Except Err (List String) :=
  match thm.p with
  | none => .error .keyError
  | some pv =>
    match runSteps axs thms thm (stepsOf pv) 1 [] [] with
    | .error e => .error e
    | .ok (stack, trace) =>
      match stack with
      | [x] =>
        if x = thm.a then .ok (trace ++ [finalLine x])
        else .error .malformedProof
      | _ => .error .malformedProof

/-! ### The container operations -/

/-- `FormalSystem.add_constant`.  The result pairs the outcome with the state
after the call; the Python method mutates `self` only after all checks, so the
state is unchanged on every error. -/
def add_constant (sys : FormalSystem) (c : String) :
    Except Err Unit × FormalSystem :=
  if amem sys.ns c then (.error .duplicateLabel, sys)
  else
    (.ok (), { sys with constants := sys.constants ++ [c],
                        ns := aset sys.ns c "constant" })

/-- `FormalSystem.add_axiom` (primed name; the Python method checks the label
against the namespace, normalizes, and stores the result — note that it never
inserts the label into `self.namespace`). -/
def add_axiom' (sys : FormalSystem) (label : String) (ax : PropRec) :
    Except Err Unit × FormalSystem :=
  if amem sys.ns label then (.error .duplicateLabel, sys)
  else
    match checkProp sys.ns sys.constants ax with
    | .error e => (.error e, sys)
    | .ok axn => (.ok (), { sys with axioms := aset sys.axioms label axn })

/-- `FormalSystem.add_theorem` (primed name; like `add_axiom'` it never
inserts the label into `self.namespace`). -/
def add_theorem' (sys : FormalSystem) (label : String) (thm : PropRec) :
    Except Err Unit × FormalSystem :=
  if amem sys.ns label then (.error .duplicateLabel, sys)
  else
    match checkProp sys.ns sys.constants thm with
    | .error e => (.error e, sys)
    | .ok thmn =>
      match proofCheck sys.axioms sys.theorems thmn with
      | .error e => (.error e, sys)
      | .ok _ => (.ok (), { sys with theorems := aset sys.theorems label thmn })

/-! ### The constructor `FormalSystem.__init__` -/

/-- Constants loop of `__init__`: duplicate check, then register each constant
in the namespace. -/
def initConstants : List String → List (String × String) →
    Except Err (List (String × String))
  | [], ns => .ok ns
  | c :: cs, ns =>
    if amem ns c then .error .duplicateLabel
    else initConstants cs (aset ns c "constant")

/-- Axioms loop of `__init__`: for each entry, duplicate check, register the
label in the namespace (before normalizing, as the Python loop does), then
normalize the proposition in place. -/
def initAxioms (constants : List String) :
    List (String × PropRec) → List (String × String) → List (String × PropRec) →
    Except Err (List (String × String) × List (String × PropRec))
  | [], ns, acc => .ok (ns, acc)
  | (a, prop) :: rest, ns, acc =>
    if amem ns a then .error .duplicateLabel
    else
      match checkProp (aset ns a "axiom") constants prop with
      | .error e => .error e
      | .ok propn => initAxioms constants rest (aset ns a "axiom") (acc ++ [(a, propn)])

/-- Theorems loop of `__init__`: duplicate check, register, normalize in
place, then proof-check against the full theorems dict as it stands at that
moment (earlier entries normalized, the current one normalized, later ones
still raw). -/
def initTheorems (constants : List String) (axs : List (String × PropRec)) :
    List (String × PropRec) → List (String × String) → List (String × PropRec) →
    Except Err (List (String × String) × List (String × PropRec))
  | [], ns, acc => .ok (ns, acc)
  | (p, prop) :: rest, ns, acc =>
    if amem ns p then .error .duplicateLabel
    else
      match checkProp (aset ns p "theorem") constants prop with
      | .error e => .error e
      | .ok propn =>
        match proofCheck axs (acc ++ [(p, propn)] ++ rest) propn with
        | .error e => .error e
        | .ok _ => initTheorems constants axs rest (aset ns p "theorem") (acc ++ [(p, propn)])

/-- `FormalSystem.__init__` in from-scratch mode: install the three
collections, then build the namespace while normalizing every axiom and
normalizing and proof-checking every theorem. -/
def mkFormalSystem (constants : List String) (axs thms : List (String × PropRec)) :
    Except Err FormalSystem :=
  match initConstants constants [] with
  | .error e => .error e
  | .ok ns1 =>
    match initAxioms constants axs ns1 [] with
    | .error e => .error e
    | .ok (ns2, axs') =>
      match initTheorems constants axs' thms ns2 [] with
      | .error e => .error e
      | .ok (ns3, thms') => .ok ⟨constants, axs', thms', ns3⟩

/-- The `initial_data` dict accepted by `__init__`. -/
structure InitialData where
  constants : List String
  axioms : List (String × PropRec)
  theorems : List (String × PropRec)
deriving DecidableEq, Repr

/-- `FormalSystem.__init__` in `initial_data` mode: the three collections are
read from `initial_data`, after which the constructor body runs the very same
namespace/normalization/proof-checking loops as the from-scratch mode. -/
def mkFormalSystemFromInitialData (d : InitialData) : Except Err FormalSystem :=
  mkFormalSystem d.constants d.axioms d.theorems

/-! ### Trace accounting -/

/-- Number of trace lines contributed by one successfully executed proof
step: a push contributes one line; a rule application contributes the apply
line, one line per typing slot, one per hypothesis, and the conclusion line.
Resolution order mirrors `execStep`. -/
def stepCost (axs thms : List (String × PropRec)) (thm : PropRec)
    (step : String) : Nat :=
  match alookup thm.t step with
  | some _ => 1
  | none =>
    match alookup thm.h step with
    | some _ => 1
    | none =>
      match alookup axs step with
      | some rule => 2 + rule.t.length + rule.h.length
      | none =>
        match alookup thms step with
        | some rule => 2 + rule.t.length + rule.h.length
        | none => 0

/-- Variables declared by a `t` block: the second token of each two-token
typing value. -/
def tVarsOf (t : List (String × String)) : List String :=
  t.filterMap (fun e =>
    match pysplit e.2 with
    | [_, x] => some x
    | _ => none)

/-! ### Concrete systems used in counterexamples and witnesses -/

/-- An assertion-only proposition `a = "wff"`. -/
def wffOnly : PropRec := ⟨[], [], [], "wff", none⟩

/-- A theorem whose one-step proof applies the rule labelled `ax0`. -/
def wffThm : PropRec := ⟨[], [], [], "wff", some (.list ["ax0"])⟩

/-- A rule with one typing slot (`wff ph`). -/
def wphAx : PropRec := ⟨[], [("twph", "wff ph")], [], "wff ph", none⟩

/-- A theorem with an empty-string hypothesis, whose proof pushes it and then
applies the one-typing-slot rule `ax1`. -/
def emptyHypThm : PropRec := ⟨[], [], [("h1", "")], "wff", some (.list ["h1", "ax1"])⟩

/-- A theorem whose one-step proof applies the rule labelled `q`. -/
def refQThm : PropRec := ⟨[], [], [], "wff", some (.list ["q"])⟩

/-- Namespace after declaring the single constant `wff`. -/
def nsWff : List (String × String) := [("wff", "constant")]

/-- Container holding the constant `wff` and the axiom `ax0`. -/
def sysAx0 : FormalSystem :=
  ⟨["wff"], [("ax0", wffOnly)], [], [("wff", "constant"), ("ax0", "axiom")]⟩

/-- Constants of the modus-ponens example. -/
def mpCons : List String := ["wff", "|-", "->", "(", ")"]

/-- Namespace after declaring the modus-ponens constants. -/
def nsMP : List (String × String) :=
  [("wff", "constant"), ("|-", "constant"), ("->", "constant"),
   ("(", "constant"), (")", "constant")]

/-- Modus ponens: `t={wff ph, wff ps}, h={|- ph, |- ( ph -> ps )}, a=|- ps`. -/
def axmpP : PropRec :=
  ⟨[], [("t_ph", "wff ph"), ("t_ps", "wff ps")],
   [("min", "|- ph"), ("maj", "|- ( ph -> ps )")], "|- ps", none⟩

/-- A rule with a distinct-variable pair `x y` over two typing slots. -/
def distAx : PropRec :=
  ⟨[("d1", "x y")], [("tx", "wff x"), ("ty", "wff y")], [], "|- ( x -> y )", none⟩

/-- Initial data whose axiom uses an undeclared token. -/
def badAxData : InitialData :=
  ⟨["wff"], [("axbad", ⟨[], [], [], "x", none⟩)], []⟩

/-- Initial data whose theorem has an empty (hence non-concluding) proof. -/
def badThmData : InitialData :=
  ⟨["wff"], [], [("tbad", ⟨[], [], [], "wff", some (.list [])⟩)]⟩

/-- Well-formed initial data: one axiom, one theorem proved from it. -/
def goodData : InitialData :=
  ⟨["wff"], [("ax0", wffOnly)], [("t0", wffThm)]⟩

/-! ### Helper lemmas -/

theorem checkProp_ok_eq (ns : List (String × String)) (cs : List String)
    (p q : PropRec) (h : checkProp ns cs p = .ok q) : q = p := by
  unfold checkProp at h
  repeat' split at h
  all_goals simp_all
  exact h.symm

theorem initAxioms_ok_acc (cs : List String) :
    ∀ (l : List (String × PropRec)) (ns : List (String × String))
      (acc : List (String × PropRec)) (ns' : List (String × String))
      (out : List (String × PropRec)),
      initAxioms cs l ns acc = .ok (ns', out) → out = acc ++ l := by
  intro l
  induction l with
  | nil => intro ns acc ns' out h; simp [initAxioms] at h; simp [h.2.symm]
  | cons e rest ih =>
    intro ns acc ns' out h
    obtain ⟨a, prop⟩ := e
    unfold initAxioms at h
    split at h
    · exact absurd h (by simp)
    · split at h
      · exact absurd h (by simp)
      · rename_i propn heq
        have := checkProp_ok_eq _ _ _ _ heq
        subst this
        have := ih _ _ _ _ h
        simpa using this

theorem initTheorems_ok_acc (cs : List String) (axs : List (String × PropRec)) :
    ∀ (l : List (String × PropRec)) (ns : List (String × String))
      (acc : List (String × PropRec)) (ns' : List (String × String))
      (out : List (String × PropRec)),
      initTheorems cs axs l ns acc = .ok (ns', out) → out = acc ++ l := by
  intro l
  induction l with
  | nil => intro ns acc ns' out h; simp [initTheorems] at h; simp [h.2.symm]
  | cons e rest ih =>
    intro ns acc ns' out h
    obtain ⟨a, prop⟩ := e
    unfold initTheorems at h
    split at h
    · exact absurd h (by simp)
    · split at h
      · exact absurd h (by simp)
      · rename_i propn heq
        have := checkProp_ok_eq _ _ _ _ heq
        subst this
        split at h
        · exact absurd h (by simp)
        · have := ih _ _ _ _ h
          simpa using this

/-! ### Claim C9 -/

/-- Claim C9: the normalizer is idempotent.  For every proposition record it
accepts, the canonical output has identical field contents, and normalizing
the output again under the same namespace state returns an equal record. -/
theorem C9_normalizer_idempotent (ns : List (String × String)) (cs : List String)
    (p q : PropRec) (h : checkProp ns cs p = .ok q) :
    q = p ∧ checkProp ns cs q = .ok q := by
  have hq := checkProp_ok_eq ns cs p q h
  subst hq
  exact ⟨rfl, h⟩

/-- Witness for C9 at the concrete proposition `wffOnly`. -/
theorem C9_normalizer_idempotent_witness :
    wffOnly = wffOnly ∧ checkProp nsWff ["wff"] wffOnly = .ok wffOnly :=
  C9_normalizer_idempotent nsWff ["wff"] wffOnly wffOnly rfl

/-! ### Claim C2 -/

/-- Claim C2 counterexample: constructing from `initial_data` is not verbatim
acceptance.  Initial data whose axiom uses an undeclared token is rejected by
the normalizer, and initial data whose theorem has a non-concluding proof is
rejected by the proof checker, so the constructor re-verifies both. -/
theorem C2_counterexample_init_data_is_checked :
    mkFormalSystemFromInitialData badAxData = .error .unknownToken ∧
    mkFormalSystemFromInitialData badThmData = .error .malformedProof :=
  ⟨rfl, rfl⟩

/-- Claim C2 as amended: the constructor normalizes every axiom and theorem of
`initial_data` and proof-checks every theorem, exactly as in from-scratch
construction; only when all checks pass is the supplied data accepted, and
then the stored collections have contents identical to the supplied ones. -/
theorem C2_amended_checked_then_verbatim (d : InitialData) (sys : FormalSystem)
    (h : mkFormalSystemFromInitialData d = .ok sys) :
    sys.constants = d.constants ∧ sys.axioms = d.axioms ∧
      sys.theorems = d.theorems := by
  unfold mkFormalSystemFromInitialData mkFormalSystem at h
  split at h
  · exact absurd h (by simp)
  · split at h
    · exact absurd h (by simp)
    · rename_i heq2
      split at h
      · exact absurd h (by simp)
      · rename_i heq3
        have h1 := initAxioms_ok_acc _ _ _ _ _ _ heq2
        have h2 := initTheorems_ok_acc _ _ _ _ _ _ _ heq3
        injection h with h
        subst h
        simp_all

/-- Witness for the amended C2 at concrete well-formed initial data. -/
theorem C2_amended_checked_then_verbatim_witness :
    ∃ sys, mkFormalSystemFromInitialData goodData = .ok sys ∧
      (sys.constants = goodData.constants ∧ sys.axioms = goodData.axioms ∧
        sys.theorems = goodData.theorems) := by
  refine ⟨⟨["wff"], [("ax0", wffOnly)], [("t0", wffThm)],
    [("wff", "constant"), ("ax0", "axiom"), ("t0", "theorem")]⟩, rfl, ?_⟩
  exact C2_amended_checked_then_verbatim goodData _ rfl

/-! ### Claim C1 -/

/-- Claim C1 (code bug evaluation): `add_axiom` and `add_theorem` never insert
the accepted label into `self.namespace` (only the constructor and
`add_constant` do), so a second add under the same label succeeds, silently
overwriting, instead of failing with `DuplicateLabel`.  The conjuncts: the
constructor registers its axiom labels; the first `add_axiom` call on a fresh
label succeeds but leaves the namespace without the label; the repeated
`add_axiom` call then also succeeds; likewise for `add_theorem`. -/
theorem C1_no_label_registration_in_add :
    mkFormalSystem ["wff"] [("ax0", wffOnly)] [] = .ok sysAx0 ∧
    (add_axiom' ⟨["wff"], [], [], nsWff⟩ "ax1" wffOnly).1 = .ok () ∧
    amem (add_axiom' ⟨["wff"], [], [], nsWff⟩ "ax1" wffOnly).2.ns "ax1" = false ∧
    (add_axiom' (add_axiom' ⟨["wff"], [], [], nsWff⟩ "ax1" wffOnly).2
      "ax1" wffOnly).1 = .ok () ∧
    (add_theorem' sysAx0 "t0" wffThm).1 = .ok () ∧
    amem (add_theorem' sysAx0 "t0" wffThm).2.ns "t0" = false ∧
    (add_theorem' (add_theorem' sysAx0 "t0" wffThm).2 "t0" wffThm).1 = .ok () :=
  ⟨rfl, rfl, rfl, rfl, rfl, rfl, rfl⟩

/-! ### Claim C10 -/

/-- Claim C10: `add_constant`, `add_axiom` and `add_theorem` are atomic: on
every failing input (duplicate label, normalization failure, or proof-check
failure) the container state — constants, axioms, theorems and namespace — is
unchanged, because the Python methods mutate `self` only after all checks. -/
theorem C10_add_ops_atomic :
    (∀ (sys : FormalSystem) (c : String) (e : Err),
      (add_constant sys c).1 = .error e → (add_constant sys c).2 = sys) ∧
    (∀ (sys : FormalSystem) (label : String) (ax : PropRec) (e : Err),
      (add_axiom' sys label ax).1 = .error e → (add_axiom' sys label ax).2 = sys) ∧
    (∀ (sys : FormalSystem) (label : String) (thm : PropRec) (e : Err),
      (add_theorem' sys label thm).1 = .error e → (add_theorem' sys label thm).2 = sys) := by
  refine ⟨?_, ?_, ?_⟩
  · intro sys c e h
    unfold add_constant at h ⊢
    split at h
    · rename_i hc
      simp only [if_pos hc]
    · exact absurd h (by simp)
  · intro sys label ax e h
    by_cases hc : amem sys.ns label = true
    · simp [add_axiom', hc]
    · cases heq : checkProp sys.ns sys.constants ax with
      | error e' => simp [add_axiom', hc, heq]
      | ok axn => simp [add_axiom', hc, heq] at h
  · intro sys label thm e h
    by_cases hc : amem sys.ns label = true
    · simp [add_theorem', hc]
    · cases heq : checkProp sys.ns sys.constants thm with
      | error e' => simp [add_theorem', hc, heq]
      | ok thmn =>
        cases heq2 : proofCheck sys.axioms sys.theorems thmn with
        | error e' => simp [add_theorem', hc, heq, heq2]
        | ok tr => simp [add_theorem', hc, heq, heq2] at h

/-- Witness for C10 at a failing `add_constant` call (duplicate label). -/
theorem C10_add_ops_atomic_witness :
    (add_constant ⟨["wff"], [], [], nsWff⟩ "wff").2 = ⟨["wff"], [], [], nsWff⟩ :=
  C10_add_ops_atomic.1 ⟨["wff"], [], [], nsWff⟩ "wff" .duplicateLabel rfl

/-! ### Claim C4 -/

/-- Claim C4: for a normalized theorem whose steps all execute, the
interpreter run succeeds iff the final stack holds exactly one expression
equal to the theorem assertion; otherwise it fails `MalformedProof`. -/
theorem C4_final_stack_shape (axs thms : List (String × PropRec))
    (thm : PropRec) (pv : PVal) (stack trace : List String)
    (hp : thm.p = some pv)
    (hrun : runSteps axs thms thm (stepsOf pv) 1 [] [] = .ok (stack, trace)) :
    ((∃ tr, proofCheck axs thms thm = .ok tr) ↔ stack = [thm.a]) ∧
    (stack ≠ [thm.a] → proofCheck axs thms thm = .error .malformedProof) := by
  unfold proofCheck
  simp only [hp, hrun]
  rcases stack with _ | ⟨x, _ | ⟨y, rest⟩⟩
  · simp
  · by_cases hx : x = thm.a <;> simp [hx]
  · simp

/-- Witness for C4 at the concrete one-step theorem `wffThm`. -/
theorem C4_final_stack_shape_witness :
    ((∃ tr, proofCheck [("ax0", wffOnly)] [] wffThm = .ok tr) ↔ ["wff"] = [wffThm.a]) ∧
    (["wff"] ≠ [wffThm.a] →
      proofCheck [("ax0", wffOnly)] [] wffThm = .error .malformedProof) :=
  C4_final_stack_shape [("ax0", wffOnly)] [] wffThm (PVal.list ["ax0"]) ["wff"]
    [applyLine 1 "axiom" "ax0", concludeLine "wff"] rfl rfl

/-! ### Claim C6 -/

/-- Claim C6 counterexample: a successful run of the one-step proof of
`wffThm` produces a trace of three entries (apply line, conclusion line,
terminal line), not one entry for its one step plus one terminal line. -/
theorem C6_counterexample_trace_not_one_per_step :
    (proofCheck [("ax0", wffOnly)] [] wffThm).map List.length = .ok 3 ∧
    (stepsOf (PVal.list ["ax0"])).length + 1 = 2 ∧ (3 : Nat) ≠ 2 :=
  ⟨rfl, rfl, by decide⟩

theorem unifyTypes_ok_trace_len :
    ∀ (pairs : List ((String × String) × String))
      (subs : List (String × String)) (tr : List String)
      (out : List (String × String) × List String),
      unifyTypes pairs subs tr = .ok out →
      out.2.length = tr.length + pairs.length := by
  intro pairs
  induction pairs with
  | nil => intro subs tr out h; simp [unifyTypes] at h; simp [← h]
  | cons e rest ih =>
    intro subs tr out h
    obtain ⟨⟨lbl, tval⟩, expr⟩ := e
    unfold unifyTypes at h
    split at h
    · split at h
      · exact absurd h (by simp)
      · split at h
        · exact absurd h (by simp)
        · have := ih _ _ _ h
          simp [this]
          omega
    · exact absurd h (by simp)

theorem hypMatch_ok_trace_len (subs : List (String × String)) :
    ∀ (pairs : List ((String × String) × String)) (tr tr' : List String),
      hypMatch subs pairs tr = .ok tr' →
      tr'.length = tr.length + pairs.length := by
  intro pairs
  induction pairs with
  | nil => intro tr tr' h; simp [hypMatch] at h; simp [← h]
  | cons e rest ih =>
    intro tr tr' h
    obtain ⟨⟨h_lbl, h_pat⟩, actual⟩ := e
    unfold hypMatch at h
    split at h
    · exact absurd h (by simp)
    · have := ih _ _ h
      simp [this]
      omega

theorem applyRule_ok_trace_len (rule : PropRec) (kind : String) (idx : Nat)
    (step : String) (stack tr : List String) (out : List String × List String)
    (h : applyRule rule kind idx step stack tr = .ok out) :
    out.2.length = tr.length + (2 + rule.t.length + rule.h.length) := by
  unfold applyRule at h
  split at h
  · exact absurd h (by simp)
  · rename_i hlen
    split at h
    · exact absurd h (by simp)
    · rename_i subs trace2 hunify
      split at h
      · exact absurd h (by simp)
      · split at h
        · exact absurd h (by simp)
        · rename_i trace3 hhyp
          have h1 := unifyTypes_ok_trace_len _ _ _ _ hunify
          have h2 := hypMatch_ok_trace_len _ _ _ _ hhyp
          have hout : out.2 = trace3 ++ [concludeLine (substPattern subs rule.a)] := by
            have := (Except.ok.injEq _ _).mp h
            rw [← this]
          rw [hout]
          simp only [List.length_append, List.length_zip, List.length_take,
            List.length_reverse, List.length_drop, List.length_cons,
            List.length_nil] at h1 h2 ⊢
          omega

theorem execStep_ok_trace_len (axs thms : List (String × PropRec))
    (thm : PropRec) (idx : Nat) (step : String) (stack tr : List String)
    (out : List String × List String)
    (h : execStep axs thms thm idx step stack tr = .ok out) :
    out.2.length = tr.length + stepCost axs thms thm step := by
  unfold execStep at h
  unfold stepCost
  split at h
  · rename_i expr heq
    have hout : out.2 = tr ++ [pushTypeLine idx step expr] := by
      have := (Except.ok.injEq _ _).mp h
      rw [← this]
    simp [hout]
  · rename_i heq1
    split at h
    · rename_i expr heq
      have hout : out.2 = tr ++ [pushHypLine idx step expr] := by
        have := (Except.ok.injEq _ _).mp h
        rw [← this]
      simp [hout]
    · rename_i heq2
      split at h
      · rename_i rule heq
        exact applyRule_ok_trace_len _ _ _ _ _ _ _ h
      · rename_i heq3
        split at h
        · rename_i rule heq
          exact applyRule_ok_trace_len _ _ _ _ _ _ _ h
        · exact absurd h (by simp)

theorem runSteps_ok_trace_len (axs thms : List (String × PropRec)) (thm : PropRec) :
    ∀ (steps : List String) (idx : Nat) (stack tr : List String)
      (out : List String × List String),
      runSteps axs thms thm steps idx stack tr = .ok out →
      out.2.length = tr.length + (steps.map (stepCost axs thms thm)).sum := by
  intro steps
  induction steps with
  | nil => intro idx stack tr out h; simp [runSteps] at h; simp [← h]
  | cons s rest ih =>
    intro idx stack tr out h
    unfold runSteps at h
    split at h
    · exact absurd h (by simp)
    · rename_i stack' trace' heq
      have h1 := execStep_ok_trace_len _ _ _ _ _ _ _ _ heq
      have h2 := ih _ _ _ _ h
      simp only [List.map_cons, List.sum_cons] at h2 ⊢
      simp at h1
      omega

/-- Claim C6 as amended: for every successful proof run, the trace contains
one entry per executed push step, `2 + |R.t| + |R.h|` entries per executed
application of a rule `R` (the apply line, one line per typing slot, one per
hypothesis, and the conclusion line), plus one terminal line reporting the
concluded assertion — i.e. its length is the sum of `stepCost` over the steps
plus one. -/
theorem C6_amended_trace_entry_count (axs thms : List (String × PropRec))
    (thm : PropRec) (pv : PVal) (tr : List String)
    (hp : thm.p = some pv) (h : proofCheck axs thms thm = .ok tr) :
    tr.length = ((stepsOf pv).map (stepCost axs thms thm)).sum + 1 := by
  unfold proofCheck at h
  simp only [hp] at h
  split at h
  · exact absurd h (by simp)
  · rename_i stack trace heq
    split at h
    · split at h
      · rename_i x hx
        have h1 := runSteps_ok_trace_len _ _ _ _ _ _ _ _ heq
        have : tr = trace ++ [finalLine x] := by
          have := (Except.ok.injEq _ _).mp h
          rw [← this]
        simp [this]
        simp at h1
        omega
      · exact absurd h (by simp)
    · exact absurd h (by simp)

/-- Witness for the amended C6 at the concrete one-step theorem `wffThm`. -/
theorem C6_amended_trace_entry_count_witness :
    ([applyLine 1 "axiom" "ax0", concludeLine "wff", finalLine "wff"] : List String).length =
      ((stepsOf (PVal.list ["ax0"])).map (stepCost [("ax0", wffOnly)] [] wffThm)).sum + 1 :=
  C6_amended_trace_entry_count [("ax0", wffOnly)] [] wffThm (PVal.list ["ax0"])
    [applyLine 1 "axiom" "ax0", concludeLine "wff", finalLine "wff"] rfl rfl

/-! ### Error kinds of the normalizer -/

theorem checkT_error_kinds (ns : List (String × String)) (cs : List String) :
    ∀ (t : List (String × String)) (nn vs : List String) (e : Err),
      checkT ns cs t nn vs = .error e →
      e = .duplicateLabel ∨ e = .malformedField := by
  intro t
  induction t with
  | nil => intro nn vs e h; simp [checkT] at h
  | cons kv rest ih =>
    intro nn vs e h
    obtain ⟨k, v⟩ := kv
    unfold checkT at h
    repeat' split at h
    all_goals first
      | (cases h; simp)
      | exact ih _ _ _ h

theorem checkTokens_error_kinds (cs vs : List String) :
    ∀ (toks : List String) (e : Err),
      checkTokens cs vs toks = .error e → e = .unknownToken := by
  intro toks
  induction toks with
  | nil => intro e h; simp [checkTokens] at h
  | cons tok rest ih =>
    intro e h
    unfold checkTokens at h
    split at h
    · exact ih _ h
    · cases h; simp

theorem checkH_error_kinds (ns : List (String × String)) (cs : List String)
    (nn vs : List String) :
    ∀ (hs : List (String × String)) (hn : List String) (e : Err),
      checkH ns cs nn vs hs hn = .error e →
      e = .duplicateLabel ∨ e = .unknownToken := by
  intro hs
  induction hs with
  | nil => intro hn e h; simp [checkH] at h
  | cons kv rest ih =>
    intro hn e h
    obtain ⟨k, v⟩ := kv
    unfold checkH at h
    repeat' split at h
    all_goals first
      | (cases h; simp)
      | exact ih _ _ h
      | (rename_i e' heq; cases h; exact Or.inr (checkTokens_error_kinds _ _ _ _ heq))

theorem checkD_error_kinds (ns : List (String × String))
    (nn hn vs : List String) :
    ∀ (ds : List (String × String)) (dn : List String) (e : Err),
      checkD ns nn hn vs ds dn = .error e →
      e = .duplicateLabel ∨ e = .distinctShape := by
  intro ds
  induction ds with
  | nil => intro dn e h; simp [checkD] at h
  | cons kv rest ih =>
    intro dn e h
    obtain ⟨k, v⟩ := kv
    unfold checkD at h
    repeat' split at h
    all_goals first
      | (cases h; simp)
      | exact ih _ _ h

theorem checkLive_error_kinds (vs : List String) (hs : List (String × String))
    (a : String) (e : Err) (h : checkLive vs hs a = .error e) :
    e = .deadVariable := by
  simp only [checkLive] at h
  split at h
  · simp at h
  · cases h; rfl

theorem checkProp_error_enumerated (ns : List (String × String))
    (cs : List String) (p : PropRec) (e : Err)
    (h : checkProp ns cs p = .error e) :
    e = .duplicateLabel ∨ e = .malformedField ∨ e = .unknownToken ∨
      e = .distinctShape ∨ e = .deadVariable := by
  unfold checkProp at h
  split at h
  · rename_i e' heq
    injection h with h
    subst h
    rcases checkT_error_kinds _ _ _ _ _ _ heq with h' | h' <;> simp [h']
  · rename_i nn vs heq1
    split at h
    · rename_i e' heq
      injection h with h
      subst h
      rcases checkH_error_kinds _ _ _ _ _ _ _ heq with h' | h' <;> simp [h']
    · rename_i hn heq2
      split at h
      · rename_i e' heq
        injection h with h
        subst h
        have h' := checkTokens_error_kinds _ _ _ _ heq
        simp [h']
      · rename_i heq3
        split at h
        · rename_i e' heq
          injection h with h
          subst h
          rcases checkD_error_kinds _ _ _ _ _ _ _ heq with h' | h' <;> simp [h']
        · rename_i heq4
          split at h
          · rename_i e' heq
            injection h with h
            subst h
            have h' := checkLive_error_kinds _ _ _ _ heq
            simp [h']
          · simp at h

/-! ### Claim C3 -/

/-- Claim C3 counterexample: the interpreter can fail outside the enumerated
error kinds.  `wphAx` and `emptyHypThm` are both normalized (the normalizer
returns them unchanged), yet running the proof of `emptyHypThm` pops its
empty-string hypothesis into the typing slot of `ax1`, where `tokens[0]` on
the zero-token expression is an uncaught Python IndexError — neither a
successful binding nor `TypeMismatch` nor any other enumerated kind; the same
failure surfaces through the public `add_theorem`. -/
theorem C3_counterexample_zero_token_pop :
    checkProp nsWff ["wff"] wphAx = .ok wphAx ∧
    checkProp [("wff", "constant"), ("ax1", "axiom")] ["wff"] emptyHypThm =
      .ok emptyHypThm ∧
    proofCheck [("ax1", wphAx)] [] emptyHypThm = .error .indexError ∧
    (add_theorem' ⟨["wff"], [("ax1", wphAx)], [],
        [("wff", "constant"), ("ax1", "axiom")]⟩ "t1" emptyHypThm).1 =
      .error .indexError ∧
    Err.indexError ≠ Err.typeMismatch :=
  ⟨rfl, rfl, rfl, rfl, by decide⟩

theorem unifyTypes_nonempty_outcomes :
    ∀ (pairs : List ((String × String) × String))
      (subs : List (String × String)) (tr : List String),
      (∀ e ∈ pairs, (pysplit e.1.2).length = 2) →
      (∀ e ∈ pairs, pysplit e.2 ≠ []) →
      (∃ out, unifyTypes pairs subs tr = .ok out) ∨
        unifyTypes pairs subs tr = .error .typeMismatch := by
  intro pairs
  induction pairs with
  | nil => intro subs tr _ _; exact Or.inl ⟨(subs, tr), rfl⟩
  | cons pr rest ih =>
    intro subs tr hshape hne
    obtain ⟨⟨lbl, tval⟩, expr⟩ := pr
    have hsh := hshape _ (List.mem_cons_self _ _)
    rcases hsp : pysplit tval with _ | ⟨c, _ | ⟨v, _ | _⟩⟩ <;>
      simp [hsp] at hsh
    rcases hxp : pysplit expr with _ | ⟨tok0, toks⟩
    · exact absurd hxp (hne _ (List.mem_cons_self _ _))
    · by_cases htc : tok0 = c
      · have := ih (aset subs v (joinSp toks))
          (tr ++ [matchLine lbl c v (joinSp toks)])
          (fun e he => hshape e (List.mem_cons_of_mem _ he))
          (fun e he => hne e (List.mem_cons_of_mem _ he))
        unfold unifyTypes
        rw [hsp, hxp]
        simp only [htc, ite_not]
        simpa [htc] using this
      · unfold unifyTypes
        rw [hsp, hxp]
        simp [htc]

theorem unifyTypes_indexError_source :
    ∀ (pairs : List ((String × String) × String))
      (subs : List (String × String)) (tr : List String),
      unifyTypes pairs subs tr = .error .indexError →
      ∃ e ∈ pairs, pysplit e.2 = [] := by
  intro pairs
  induction pairs with
  | nil => intro subs tr h; simp [unifyTypes] at h
  | cons pr rest ih =>
    intro subs tr h
    obtain ⟨⟨lbl, tval⟩, expr⟩ := pr
    unfold unifyTypes at h
    rcases hsp : pysplit tval with _ | ⟨c, _ | ⟨v, _ | _⟩⟩ <;>
      rw [hsp] at h <;> try simp at h
    rcases hxp : pysplit expr with _ | ⟨tok0, toks⟩
    · exact ⟨_, List.mem_cons_self _ _, hxp⟩
    · rw [hxp] at h
      by_cases htc : tok0 = c
      · simp [htc] at h
        obtain ⟨e', he', hee⟩ := ih _ _ h
        exact ⟨e', List.mem_cons_of_mem _ he', hee⟩
      · simp [htc] at h

/-- Claim C3 as amended: every failure of the normalizer is one of the
enumerated error kinds, and type unification over typing slots of normalized
shape (two-token patterns) terminates in a successful binding or
`TypeMismatch` whenever every popped argument expression has at least one
token; a zero-token popped argument instead raises an uncaught IndexError
outside the enumerated kinds, and that is the only way unification fails with
it. -/
theorem C3_amended_failure_modes
    (pairs : List ((String × String) × String))
    (subs : List (String × String)) (tr : List String)
    (hshape : ∀ e ∈ pairs, (pysplit e.1.2).length = 2) :
    ((∀ e ∈ pairs, pysplit e.2 ≠ []) →
      (∃ out, unifyTypes pairs subs tr = .ok out) ∨
        unifyTypes pairs subs tr = .error .typeMismatch) ∧
    (unifyTypes pairs subs tr = .error .indexError →
      ∃ e ∈ pairs, pysplit e.2 = []) ∧
    (∀ (ns : List (String × String)) (cs : List String) (p : PropRec) (e : Err),
      checkProp ns cs p = .error e →
      e = .duplicateLabel ∨ e = .malformedField ∨ e = .unknownToken ∨
        e = .distinctShape ∨ e = .deadVariable) := by
  exact ⟨unifyTypes_nonempty_outcomes pairs subs tr hshape,
    unifyTypes_indexError_source pairs subs tr,
    fun ns cs p e h => checkProp_error_enumerated ns cs p e h⟩

/-- Witness for the amended C3 at one concrete typing slot and argument. -/
theorem C3_amended_failure_modes_witness :
    ((∀ e ∈ ([(("t_ph", "wff ph"), "wff a")] : List ((String × String) × String)),
        pysplit e.2 ≠ []) →
      (∃ out, unifyTypes [(("t_ph", "wff ph"), "wff a")] [] [] = .ok out) ∨
        unifyTypes [(("t_ph", "wff ph"), "wff a")] [] [] = .error .typeMismatch) ∧
    (unifyTypes [(("t_ph", "wff ph"), "wff a")] [] [] = .error .indexError →
      ∃ e ∈ ([(("t_ph", "wff ph"), "wff a")] : List ((String × String) × String)),
        pysplit e.2 = []) ∧
    (∀ (ns : List (String × String)) (cs : List String) (p : PropRec) (e : Err),
      checkProp ns cs p = .error e →
      e = .duplicateLabel ∨ e = .malformedField ∨ e = .unknownToken ∨
        e = .distinctShape ∨ e = .deadVariable) :=
  C3_amended_failure_modes [(("t_ph", "wff ph"), "wff a")] [] []
    (by intro e he; simp at he; subst he; rfl)

/-! ### Claim C5 -/

/-- Claim C5: for each distinct-variable entry `v1 v2` of the applied rule
with both variables bound in the substitution map, the check fails
`DistinctViolation` exactly when the token sets of `subs[v1]` and `subs[v2]`
intersect; entries with either variable unbound are skipped — they never
cause the failure, and the check succeeds iff no bound pair intersects. -/
theorem C5_distinct_enforcement :
    ∀ (d subs : List (String × String)),
      (∀ e ∈ d, (pysplit e.2).length = 2) →
      ((distinctCheck d subs = .error .distinctViolation ↔
        ∃ e ∈ d, ∃ v1 v2 s1 s2, pysplit e.2 = [v1, v2] ∧
          alookup subs v1 = some s1 ∧ alookup subs v2 = some s2 ∧
          tokensIntersect (pysplit s1) (pysplit s2) = true) ∧
      (distinctCheck d subs = .ok () ↔
        ∀ e ∈ d, ∀ v1 v2 s1 s2, pysplit e.2 = [v1, v2] →
          alookup subs v1 = some s1 → alookup subs v2 = some s2 →
          tokensIntersect (pysplit s1) (pysplit s2) = false)) := by
  intro d
  induction d with
  | nil => intro subs _; constructor <;> simp [distinctCheck]
  | cons hd rest ih =>
    intro subs hshape
    obtain ⟨k, pair⟩ := hd
    have hsh := hshape _ (List.mem_cons_self _ _)
    rcases hsp : pysplit pair with _ | ⟨v1, _ | ⟨v2, _ | _⟩⟩ <;> simp [hsp] at hsh
    obtain ⟨ih1, ih2⟩ := ih subs (fun e he => hshape e (List.mem_cons_of_mem _ he))
    rcases h1 : alookup subs v1 with _ | s1
    · have hred : distinctCheck ((k, pair) :: rest) subs = distinctCheck rest subs := by
        rw [distinctCheck, hsp]
        simp only [h1]
      rw [hred, ih1, ih2]
      constructor
      · constructor
        · rintro ⟨e, he, hP⟩
          exact ⟨e, List.mem_cons_of_mem _ he, hP⟩
        · rintro ⟨e, he, v1', v2', s1', s2', hps, ha1, ha2, hint⟩
          rcases List.mem_cons.mp he with rfl | he'
          · rw [hsp] at hps
            obtain ⟨rfl, rfl⟩ : v1 = v1' ∧ v2 = v2' :=
              ⟨(List.cons.inj hps).1, ((List.cons.inj hps).2 |> List.cons.inj).1⟩
            rw [h1] at ha1
            exact absurd ha1 (by simp)
          · exact ⟨e, he', v1', v2', s1', s2', hps, ha1, ha2, hint⟩
      · constructor
        · intro hall e he v1' v2' s1' s2' hps ha1 ha2
          rcases List.mem_cons.mp he with rfl | he'
          · rw [hsp] at hps
            obtain ⟨rfl, rfl⟩ : v1 = v1' ∧ v2 = v2' :=
              ⟨(List.cons.inj hps).1, ((List.cons.inj hps).2 |> List.cons.inj).1⟩
            rw [h1] at ha1
            exact absurd ha1 (by simp)
          · exact hall e he' v1' v2' s1' s2' hps ha1 ha2
        · intro hall e he v1' v2' s1' s2' hps ha1 ha2
          exact hall e (List.mem_cons_of_mem _ he) v1' v2' s1' s2' hps ha1 ha2
    · rcases h2 : alookup subs v2 with _ | s2
      · have hred : distinctCheck ((k, pair) :: rest) subs = distinctCheck rest subs := by
          rw [distinctCheck, hsp]
          simp only [h1, h2]
        rw [hred, ih1, ih2]
        constructor
        · constructor
          · rintro ⟨e, he, hP⟩
            exact ⟨e, List.mem_cons_of_mem _ he, hP⟩
          · rintro ⟨e, he, v1', v2', s1', s2', hps, ha1, ha2, hint⟩
            rcases List.mem_cons.mp he with rfl | he'
            · rw [hsp] at hps
              obtain ⟨rfl, rfl⟩ : v1 = v1' ∧ v2 = v2' :=
                ⟨(List.cons.inj hps).1, ((List.cons.inj hps).2 |> List.cons.inj).1⟩
              rw [h2] at ha2
              exact absurd ha2 (by simp)
            · exact ⟨e, he', v1', v2', s1', s2', hps, ha1, ha2, hint⟩
        · constructor
          · intro hall e he v1' v2' s1' s2' hps ha1 ha2
            rcases List.mem_cons.mp he with rfl | he'
            · rw [hsp] at hps
              obtain ⟨rfl, rfl⟩ : v1 = v1' ∧ v2 = v2' :=
                ⟨(List.cons.inj hps).1, ((List.cons.inj hps).2 |> List.cons.inj).1⟩
              rw [h2] at ha2
              exact absurd ha2 (by simp)
            · exact hall e he' v1' v2' s1' s2' hps ha1 ha2
          · intro hall e he v1' v2' s1' s2' hps ha1 ha2
            exact hall e (List.mem_cons_of_mem _ he) v1' v2' s1' s2' hps ha1 ha2
      · rcases hint : tokensIntersect (pysplit s1) (pysplit s2) with _ | _
        · have hred : distinctCheck ((k, pair) :: rest) subs = distinctCheck rest subs := by
            rw [distinctCheck, hsp]
            simp [h1, h2, hint]
          rw [hred, ih1, ih2]
          constructor
          · constructor
            · rintro ⟨e, he, hP⟩
              exact ⟨e, List.mem_cons_of_mem _ he, hP⟩
            · rintro ⟨e, he, v1', v2', s1', s2', hps, ha1, ha2, hint'⟩
              rcases List.mem_cons.mp he with rfl | he'
              · rw [hsp] at hps
                obtain ⟨rfl, rfl⟩ : v1 = v1' ∧ v2 = v2' :=
                  ⟨(List.cons.inj hps).1, ((List.cons.inj hps).2 |> List.cons.inj).1⟩
                have hs1 : s1' = s1 := by
                  have := h1.symm.trans ha1
                  exact (Option.some.inj this).symm
                have hs2 : s2' = s2 := by
                  have := h2.symm.trans ha2
                  exact (Option.some.inj this).symm
                subst hs1; subst hs2
                rw [hint] at hint'
                exact absurd hint' (by simp)
              · exact ⟨e, he', v1', v2', s1', s2', hps, ha1, ha2, hint'⟩
          · constructor
            · intro hall e he v1' v2' s1' s2' hps ha1 ha2
              rcases List.mem_cons.mp he with rfl | he'
              · rw [hsp] at hps
                obtain ⟨rfl, rfl⟩ : v1 = v1' ∧ v2 = v2' :=
                  ⟨(List.cons.inj hps).1, ((List.cons.inj hps).2 |> List.cons.inj).1⟩
                have hs1 : s1' = s1 := (Option.some.inj (h1.symm.trans ha1)).symm
                have hs2 : s2' = s2 := (Option.some.inj (h2.symm.trans ha2)).symm
                subst hs1; subst hs2
                exact hint
              · exact hall e he' v1' v2' s1' s2' hps ha1 ha2
            · intro hall e he v1' v2' s1' s2' hps ha1 ha2
              exact hall e (List.mem_cons_of_mem _ he) v1' v2' s1' s2' hps ha1 ha2
        · have hred : distinctCheck ((k, pair) :: rest) subs =
              .error .distinctViolation := by
            rw [distinctCheck, hsp]
            simp [h1, h2, hint]
          rw [hred]
          constructor
          · constructor
            · intro _
              exact ⟨(k, pair), List.mem_cons_self _ _, v1, v2, s1, s2, hsp, h1, h2, hint⟩
            · intro _
              rfl
          · constructor
            · intro hcontra
              exact absurd hcontra (by simp)
            · intro hall
              have := hall (k, pair) (List.mem_cons_self _ _) v1 v2 s1 s2 hsp h1 h2
              rw [hint] at this
              exact absurd this (by simp)

/-- Witness for C5 at the distinct-violation scenario of the specification:
`d = {d1 : x y}` with both variables substituted by expressions sharing the
token `b`. -/
theorem C5_distinct_enforcement_witness :
    ((distinctCheck [("d1", "x y")] [("x", "a b"), ("y", "b c")] =
        .error .distinctViolation ↔
      ∃ e ∈ ([("d1", "x y")] : List (String × String)), ∃ v1 v2 s1 s2,
        pysplit e.2 = [v1, v2] ∧
        alookup [("x", "a b"), ("y", "b c")] v1 = some s1 ∧
        alookup [("x", "a b"), ("y", "b c")] v2 = some s2 ∧
        tokensIntersect (pysplit s1) (pysplit s2) = true) ∧
    (distinctCheck [("d1", "x y")] [("x", "a b"), ("y", "b c")] = .ok () ↔
      ∀ e ∈ ([("d1", "x y")] : List (String × String)), ∀ v1 v2 s1 s2,
        pysplit e.2 = [v1, v2] →
        alookup [("x", "a b"), ("y", "b c")] v1 = some s1 →
        alookup [("x", "a b"), ("y", "b c")] v2 = some s2 →
        tokensIntersect (pysplit s1) (pysplit s2) = false)) :=
  C5_distinct_enforcement [("d1", "x y")] [("x", "a b"), ("y", "b c")]
    (by intro e he; simp at he; subst he; rfl)

/-! ### Error kinds of the interpreter helpers -/

theorem unifyTypes_error_kinds :
    ∀ (pairs : List ((String × String) × String))
      (subs : List (String × String)) (tr : List String) (e : Err),
      unifyTypes pairs subs tr = .error e →
      e = .typeMismatch ∨ e = .indexError ∨ e = .unpackError := by
  intro pairs
  induction pairs with
  | nil => intro subs tr e h; simp [unifyTypes] at h
  | cons pr rest ih =>
    intro subs tr e h
    obtain ⟨⟨lbl, tval⟩, expr⟩ := pr
    unfold unifyTypes at h
    repeat' split at h
    all_goals first
      | (cases h; simp)
      | exact ih _ _ _ h

theorem distinctCheck_error_kinds :
    ∀ (ds subs : List (String × String)) (e : Err),
      distinctCheck ds subs = .error e →
      e = .distinctViolation ∨ e = .unpackError := by
  intro ds
  induction ds with
  | nil => intro subs e h; simp [distinctCheck] at h
  | cons pr rest ih =>
    intro subs e h
    obtain ⟨k, pair⟩ := pr
    unfold distinctCheck at h
    repeat' split at h
    all_goals first
      | (cases h; simp)
      | exact ih _ _ h

theorem hypMatch_error_kinds (subs : List (String × String)) :
    ∀ (pairs : List ((String × String) × String)) (tr : List String) (e : Err),
      hypMatch subs pairs tr = .error e → e = .hypothesisMismatch := by
  intro pairs
  induction pairs with
  | nil => intro tr e h; simp [hypMatch] at h
  | cons pr rest ih =>
    intro tr e h
    obtain ⟨⟨h_lbl, h_pat⟩, actual⟩ := pr
    unfold hypMatch at h
    split at h
    · cases h; rfl
    · exact ih _ _ h

theorem applyRule_error_kinds (rule : PropRec) (kind : String) (idx : Nat)
    (step : String) (stack tr : List String) (e : Err)
    (h : applyRule rule kind idx step stack tr = .error e) :
    e = .stackUnderflow ∨ e = .typeMismatch ∨ e = .indexError ∨
      e = .unpackError ∨ e = .distinctViolation ∨ e = .hypothesisMismatch := by
  unfold applyRule at h
  split at h
  · cases h; simp
  · split at h
    · rename_i e' heq
      cases h
      rcases unifyTypes_error_kinds _ _ _ _ heq with h' | h' | h' <;> simp [h']
    · split at h
      · rename_i e' heq
        cases h
        rcases distinctCheck_error_kinds _ _ _ heq with h' | h' <;> simp [h']
      · split at h
        · rename_i e' heq
          cases h
          simp [hypMatch_error_kinds _ _ _ _ heq]
        · simp at h

/-! ### Claim C7 -/

/-- Claim C7: a proof step label is resolved in the order typing-label of the
theorem, hypothesis-label of the theorem, axiom, accepted theorem (earlier
matches shadow later ones), and the step fails `UnknownStep` exactly when the
label is none of these.  Consequently the concrete theorem `refQThm`, whose
proof references the theorem labelled `q`, is rejected with `UnknownStep`
before `q` is accepted and accepted afterwards. -/
theorem C7_step_resolution_order :
    (∀ (axs thms : List (String × PropRec)) (thm : PropRec) (idx : Nat)
       (step : String) (stack tr : List String) (expr : String),
       alookup thm.t step = some expr →
       execStep axs thms thm idx step stack tr =
         .ok (expr :: stack, tr ++ [pushTypeLine idx step expr])) ∧
    (∀ (axs thms : List (String × PropRec)) (thm : PropRec) (idx : Nat)
       (step : String) (stack tr : List String) (expr : String),
       alookup thm.t step = none → alookup thm.h step = some expr →
       execStep axs thms thm idx step stack tr =
         .ok (expr :: stack, tr ++ [pushHypLine idx step expr])) ∧
    (∀ (axs thms : List (String × PropRec)) (thm : PropRec) (idx : Nat)
       (step : String) (stack tr : List String) (rule : PropRec),
       alookup thm.t step = none → alookup thm.h step = none →
       alookup axs step = some rule →
       execStep axs thms thm idx step stack tr =
         applyRule rule "axiom" idx step stack tr) ∧
    (∀ (axs thms : List (String × PropRec)) (thm : PropRec) (idx : Nat)
       (step : String) (stack tr : List String) (rule : PropRec),
       alookup thm.t step = none → alookup thm.h step = none →
       alookup axs step = none → alookup thms step = some rule →
       execStep axs thms thm idx step stack tr =
         applyRule rule "theorem" idx step stack tr) ∧
    (∀ (axs thms : List (String × PropRec)) (thm : PropRec) (idx : Nat)
       (step : String) (stack tr : List String),
       execStep axs thms thm idx step stack tr = .error .unknownStep ↔
         alookup thm.t step = none ∧ alookup thm.h step = none ∧
         alookup axs step = none ∧ alookup thms step = none) ∧
    ((add_theorem' sysAx0 "t2" refQThm).1 = .error .unknownStep ∧
     (add_theorem' (add_theorem' sysAx0 "q" wffThm).2 "t2" refQThm).1 = .ok ()) := by
  refine ⟨?_, ?_, ?_, ?_, ?_, rfl, rfl⟩
  · intro axs thms thm idx step stack tr expr h
    simp [execStep, h]
  · intro axs thms thm idx step stack tr expr h1 h2
    simp [execStep, h1, h2]
  · intro axs thms thm idx step stack tr rule h1 h2 h3
    simp [execStep, h1, h2, h3]
  · intro axs thms thm idx step stack tr rule h1 h2 h3 h4
    simp [execStep, h1, h2, h3, h4]
  · intro axs thms thm idx step stack tr
    constructor
    · intro h
      rcases ht : alookup thm.t step with _ | expr
      · rcases hh : alookup thm.h step with _ | expr
        · rcases ha : alookup axs step with _ | rule
          · rcases hth : alookup thms step with _ | rule
            · exact ⟨rfl, rfl, rfl, rfl⟩
            · simp [execStep, ht, hh, ha, hth] at h
              rcases applyRule_error_kinds _ _ _ _ _ _ _ h
                with h' | h' | h' | h' | h' | h' <;> simp at h'
          · simp [execStep, ht, hh, ha] at h
            rcases applyRule_error_kinds _ _ _ _ _ _ _ h
              with h' | h' | h' | h' | h' | h' <;> simp at h'
        · simp [execStep, ht, hh] at h
      · simp [execStep, ht] at h
    · rintro ⟨h1, h2, h3, h4⟩
      simp [execStep, h1, h2, h3, h4]

/-- Witness for C7: the typing-label branch at a concrete step of the
modus-ponens rule. -/
theorem C7_step_resolution_order_witness :
    execStep [] [] axmpP 1 "t_ph" [] [] =
      .ok (["wff ph"], [] ++ [pushTypeLine 1 "t_ph" "wff ph"]) :=
  C7_step_resolution_order.1 [] [] axmpP 1 "t_ph" [] [] "wff ph" rfl

/-! ### Helper lemmas for claim C8 -/

theorem alookup_aset {α : Type} :
    ∀ (m : List (String × α)) (k : String) (v : α) (x : String),
      alookup (aset m k v) x = if k = x then some v else alookup m x := by
  intro m
  induction m with
  | nil => intro k v x; simp [aset, alookup]
  | cons e rest ih =>
    intro k v x
    obtain ⟨k', v'⟩ := e
    by_cases hk : k' = k
    · subst hk
      by_cases hx : k' = x <;> simp [aset, alookup, hx]
    · simp only [aset, if_neg hk]
      by_cases hx : k' = x
      · subst hx
        have hkx : ¬ k = k' := fun hc => hk hc.symm
        simp [alookup, if_neg hkx]
      · simp [alookup, if_neg hx, ih]

theorem amem_aset_iff {α : Type} (m : List (String × α)) (k : String) (v : α)
    (x : String) : amem (aset m k v) x = true ↔ x = k ∨ amem m x = true := by
  simp only [amem, alookup_aset]
  by_cases hk : k = x
  · subst hk
    simp
  · have hxk : ¬ x = k := fun hc => hk hc.symm
    simp [if_neg hk, hxk, amem]

theorem tVarsOf_mem (t : List (String × String)) (x : String) :
    x ∈ tVarsOf t ↔ ∃ e ∈ t, ∃ c, pysplit e.2 = [c, x] := by
  simp only [tVarsOf, List.mem_filterMap]
  constructor
  · rintro ⟨e, he, hf⟩
    rcases hsp : pysplit e.2 with _ | ⟨c, _ | ⟨v, _ | _⟩⟩ <;>
      rw [hsp] at hf <;> simp at hf
    exact ⟨e, he, c, by rw [hsp, hf]⟩
  · rintro ⟨e, he, c, hsp⟩
    exact ⟨e, he, by rw [hsp]⟩

theorem checkT_ok_vars (ns : List (String × String)) (cs : List String) :
    ∀ (t : List (String × String)) (nn0 vs0 nn vars : List String),
      checkT ns cs t nn0 vs0 = .ok (nn, vars) →
      vars = vs0 ++ tVarsOf t := by
  intro t
  induction t with
  | nil =>
    intro nn0 vs0 nn vars h
    simp [checkT] at h
    simp [tVarsOf, ← h.2]
  | cons e rest ih =>
    intro nn0 vs0 nn vars h
    obtain ⟨k, v⟩ := e
    unfold checkT at h
    split at h
    · simp at h
    · split at h
      · simp at h
      · split at h
        · rename_i c0 v1 hsp
          split at h
          · split at h
            · simp at h
            · have := ih _ _ _ _ h
              simp only [this]
              have ht : tVarsOf ((k, v) :: rest) = v1 :: tVarsOf rest := by
                simp [tVarsOf, hsp]
              rw [ht]
              simp
          · simp at h
        · simp at h

theorem checkD_ok_pairs (ns : List (String × String)) (nn hn vs : List String) :
    ∀ (ds : List (String × String)) (dn : List String),
      checkD ns nn hn vs ds dn = .ok () →
      ∀ e ∈ ds, ∃ v1 v2, pysplit e.2 = [v1, v2] ∧
        v1 ∈ vs ∧ v2 ∈ vs ∧ v1 ≠ v2 := by
  intro ds
  induction ds with
  | nil => intro dn h e he; simp at he
  | cons pr rest ih =>
    intro dn h e he
    obtain ⟨k, pair⟩ := pr
    unfold checkD at h
    split at h
    · simp at h
    · split at h
      · rename_i v1 v2 hsp
        split at h
        · rename_i hcond
          simp only [Bool.and_eq_true, decide_eq_true_eq] at hcond
          rcases List.mem_cons.mp he with rfl | he'
          · refine ⟨v1, v2, hsp, ?_, ?_, hcond.2⟩
            · simpa using hcond.1.1
            · simpa using hcond.1.2
          · exact ih _ h e he'
        · simp at h
      · simp at h

theorem unifyTypes_ok_binds :
    ∀ (pairs : List ((String × String) × String))
      (subs0 : List (String × String)) (tr : List String)
      (subs : List (String × String)) (tr' : List String),
      unifyTypes pairs subs0 tr = .ok (subs, tr') →
      ∀ x, amem subs x = true ↔
        (amem subs0 x = true ∨ ∃ e ∈ pairs, ∃ c, pysplit e.1.2 = [c, x]) := by
  intro pairs
  induction pairs with
  | nil =>
    intro subs0 tr subs tr' h x
    simp [unifyTypes] at h
    simp [← h.1]
  | cons pr rest ih =>
    intro subs0 tr subs tr' h x
    obtain ⟨⟨lbl, tval⟩, expr⟩ := pr
    unfold unifyTypes at h
    split at h
    · rename_i c v hsp
      split at h
      · simp at h
      · rename_i tok0 toks hxp
        split at h
        · simp at h
        · rename_i hne
          rw [ih _ _ _ _ h x, amem_aset_iff]
          simp only [List.mem_cons]
          constructor
          · rintro ((rfl | hm) | ⟨e, he, c', hc⟩)
            · exact Or.inr ⟨(⟨lbl, tval⟩, expr), Or.inl rfl, c, hsp⟩
            · exact Or.inl hm
            · exact Or.inr ⟨e, Or.inr he, c', hc⟩
          · rintro (hm | ⟨e, he | he, c', hc⟩)
            · exact Or.inl (Or.inr hm)
            · subst he
              simp only at hc
              rw [hsp] at hc
              have : x = v := ((List.cons.inj hc).2 |> List.cons.inj).1.symm
              exact Or.inl (Or.inl this)
            · exact Or.inr ⟨e, he, c', hc⟩
    · simp at h

theorem checkProp_ok_parts (ns : List (String × String)) (cs : List String)
    (p q : PropRec) (h : checkProp ns cs p = .ok q) :
    ∃ nn vars hyp_names, checkT ns cs p.t [] [] = .ok (nn, vars) ∧
      checkD ns nn hyp_names vars p.d [] = .ok () := by
  unfold checkProp at h
  split at h
  · simp at h
  · rename_i nn vars heqT
    split at h
    · simp at h
    · rename_i hn heqH
      split at h
      · simp at h
      · split at h
        · simp at h
        · rename_i heqD
          exact ⟨nn, vars, hn, heqT, heqD⟩

/-! ### Claim C8 -/

/-- Claim C8: for every application of a normalized rule `R` that passes type
unification, the substitution map binds exactly the variables declared in
`R.t`; hence for every distinct-variable pair of `R` both variables are
bound, and the unbound-skip branch of the distinct check is unreachable for
normalized rules. -/
theorem C8_substitution_total (ns : List (String × String)) (cs : List String)
    (R : PropRec) (args : List String) (subs : List (String × String))
    (tr tr' : List String)
    (hnorm : checkProp ns cs R = .ok R)
    (hlen : args.length = R.t.length)
    (hok : unifyTypes (R.t.zip args) [] tr = .ok (subs, tr')) :
    (∀ x, amem subs x = true ↔ ∃ e ∈ R.t, ∃ c, pysplit e.2 = [c, x]) ∧
    (∀ e ∈ R.d, ∀ v1 v2, pysplit e.2 = [v1, v2] →
      amem subs v1 = true ∧ amem subs v2 = true) := by
  obtain ⟨nn, vars, hn, heqT, heqD⟩ := checkProp_ok_parts ns cs R R hnorm
  have hvars : vars = tVarsOf R.t := by
    simpa using checkT_ok_vars ns cs R.t [] [] nn vars heqT
  have hbind := unifyTypes_ok_binds (R.t.zip args) [] tr subs tr' hok
  have hmain : ∀ x, amem subs x = true ↔ ∃ e ∈ R.t, ∃ c, pysplit e.2 = [c, x] := by
    intro x
    rw [hbind x]
    simp only [amem, alookup, Option.isSome_none, Bool.false_eq_true, false_or]
    constructor
    · rintro ⟨e, he, c, hc⟩
      have := List.of_mem_zip he
      exact ⟨e.1, this.1, c, hc⟩
    · rintro ⟨e1, he1, c, hc⟩
      have hmm : e1 ∈ (R.t.zip args).map Prod.fst := by
        rw [List.map_fst_zip _ _ (le_of_eq hlen.symm)]
        exact he1
      obtain ⟨e, he, heq⟩ := List.mem_map.mp hmm
      exact ⟨e, he, c, by rw [heq]; exact hc⟩
  refine ⟨hmain, ?_⟩
  intro e he v1 v2 hps
  obtain ⟨v1', v2', hps', h1, h2, hne⟩ :=
    checkD_ok_pairs ns nn hn vars R.d [] heqD e he
  rw [hps] at hps'
  obtain ⟨rfl, rfl⟩ : v1 = v1' ∧ v2 = v2' :=
    ⟨(List.cons.inj hps').1, ((List.cons.inj hps').2 |> List.cons.inj).1⟩
  rw [hvars, tVarsOf_mem] at h1 h2
  exact ⟨(hmain v1).mpr h1, (hmain v2).mpr h2⟩

/-- Witness for C8 at the rule `distAx` applied to the arguments
`wff a` and `wff b`. -/
theorem C8_substitution_total_witness :
    (∀ x, amem [("x", "a"), ("y", "b")] x = true ↔
      ∃ e ∈ distAx.t, ∃ c, pysplit e.2 = [c, x]) ∧
    (∀ e ∈ distAx.d, ∀ v1 v2, pysplit e.2 = [v1, v2] →
      amem [("x", "a"), ("y", "b")] v1 = true ∧
      amem [("x", "a"), ("y", "b")] v2 = true) :=
  C8_substitution_total nsMP mpCons distAx ["wff a", "wff b"]
    [("x", "a"), ("y", "b")] []
    [matchLine "tx" "wff" "x" "a", matchLine "ty" "wff" "y" "b"]
    rfl rfl rfl
